import Mathlib

/-!
# Verification of the sec-kpi-metrics catalog core

Shallow embedding of the category indexing and full-text filtering engine of
`src/App.vue` (catalog loader, `hydrateMetric`, `toComparable`, `matchesSearch`,
`filteredCategories`, `displayMetrics`, the selection-reconciliation
`watchEffect`, and `metricDetails`), together with theorems settling the
specification claims about them.

JavaScript string primitives (`toLowerCase`, `trim`, `includes`, `String(x)`)
are modelled over character lists, restricted to the ASCII behaviour they share
with Unicode; JavaScript runtime values reaching `toComparable` (typed
`unknown`) are modelled by the inductive `JVal`.
-/

namespace SecKpi

/-- Model of JavaScript `String.prototype.toLowerCase` (ASCII case mapping). -/
def jsToLower (s : String) : String := ⟨s.data.map Char.toLower⟩

/-- Model of JavaScript `String.prototype.trim`: drop whitespace at both ends. -/
def jsTrim (s : String) : String :=
  ⟨((s.data.dropWhile Char.isWhitespace).reverse.dropWhile Char.isWhitespace).reverse⟩

/-- Model of JavaScript `hay.includes(sub)`: substring containment. -/
def jsIncludes (hay sub : String) : Bool := decide (sub.data <:+: hay.data)

/-- JavaScript runtime values that can reach `toComparable` (typed `unknown`
in the source): strings, numbers, booleans, `null` and `undefined`. -/
inductive JVal where
  | vstr (s : String)
  | vnum (n : Int)
  | vbool (b : Bool)
  | vnull
  | vundef
deriving DecidableEq

/-- Model of JavaScript `String(x)` on the `JVal` domain. -/
def jsToString : JVal → String
  | .vstr s => s
  | .vnum n => toString n
  | .vbool true => "true"
  | .vbool false => "false"
  | .vnull => "null"
  | .vundef => "undefined"

/-- Raw record shape `MetricBase` from `App.vue`: all fields may be absent or
null (`Option`); `Category`, `MetricTitle`, `MetricDescription` are declared
required in TypeScript but `hydrateMetric` still null-coalesces them. -/
structure MetricBase where
  Category : Option String := none
  SubCategory : Option String := none
  MetricTitle : Option String := none
  MetricDescription : Option String := none
  ReportPeriod : Option String := none
  Target : Option String := none
  Comment : Option String := none
  Contributor : Option String := none
  Source : Option String := none
deriving DecidableEq

/-- Hydrated record `Metric` from `App.vue`: `id` is derived; `SubCategory`
is `string | null` (the hydration coalesces it to `null`, not `''`); all
other fields are plain strings after hydration. -/
structure Metric where
  id : String
  Category : String
  SubCategory : Option String
  MetricTitle : String
  MetricDescription : String
  ReportPeriod : String
  Target : String
  Comment : String
  Contributor : String
  Source : String
deriving DecidableEq

/-- `hydrateMetric` from `App.vue` lines 32-43: `id = slug-index`; every
field null-coalesced — `SubCategory` to `null`, all others to `''`. -/
def hydrateMetric (metric : MetricBase) (slug : String) (index : Nat) : Metric :=
  { id := slug ++ "-" ++ toString index
    Category := metric.Category.getD ""
    SubCategory := metric.SubCategory
    MetricTitle := metric.MetricTitle.getD ""
    MetricDescription := metric.MetricDescription.getD ""
    ReportPeriod := metric.ReportPeriod.getD ""
    Target := metric.Target.getD ""
    Comment := metric.Comment.getD ""
    Contributor := metric.Contributor.getD ""
    Source := metric.Source.getD "" }

/-- `CategoryMeta` from `App.vue`: one manifest (`index.json`) entry. -/
structure CategoryMeta where
  category : String
  slug : String
  file : String
  count : Nat
deriving DecidableEq

/-- `CategoryEntry` from `App.vue`: a manifest entry plus its hydrated items
(`count` is overwritten with `items.length` by the loader). -/
structure CategoryEntry where
  category : String
  slug : String
  file : String
  count : Nat
  items : List Metric
deriving DecidableEq

/-- `initialCategories` from `App.vue` lines 45-55: the catalog loader. The
bundled module map (`import.meta.glob` result) is modelled as an association
list from module key to raw record list; a missing key yields `[]`. -/
def initialCategories (metricsIndex : List CategoryMeta)
    (modules : List (String × List MetricBase)) : List CategoryEntry :=
  metricsIndex.map (fun meta =>
    let moduleKey := "./data/metrics/" ++ meta.slug ++ ".json"
    let rawItems := (modules.lookup moduleKey).getD []
    let items := rawItems.mapIdx (fun itemIndex item => hydrateMetric item meta.slug itemIndex)
    { category := meta.category
      slug := meta.slug
      file := meta.file
      count := items.length
      items := items })

/-- The nine searchable fields of a `Metric` (`searchableFields` keys). -/
inductive Field where
  | MetricTitle
  | MetricDescription
  | Category
  | SubCategory
  | ReportPeriod
  | Target
  | Comment
  | Contributor
  | Source
deriving DecidableEq

/-- `searchableFields` from `App.vue` lines 62-72, in source order. -/
def searchableFields : List Field :=
  [.MetricTitle, .MetricDescription, .Category, .SubCategory, .ReportPeriod,
   .Target, .Comment, .Contributor, .Source]

/-- `metric[field]` as the JavaScript value stored in a hydrated record:
`SubCategory` may be `null`, every other field is a string. -/
def getField (m : Metric) : Field → JVal
  | .MetricTitle => .vstr m.MetricTitle
  | .MetricDescription => .vstr m.MetricDescription
  | .Category => .vstr m.Category
  | .SubCategory => match m.SubCategory with
    | some s => .vstr s
    | none => .vnull
  | .ReportPeriod => .vstr m.ReportPeriod
  | .Target => .vstr m.Target
  | .Comment => .vstr m.Comment
  | .Contributor => .vstr m.Contributor
  | .Source => .vstr m.Source

/-- `toComparable` from `App.vue` lines 74-75: strings are lower-cased,
`null`/`undefined` become `''`, any other value is `String(x).toLowerCase()`. -/
def toComparable : JVal → String
  | .vstr s => jsToLower s
  | .vnull => ""
  | .vundef => ""
  | v => jsToLower (jsToString v)

/-- `matchesSearch` from `App.vue` lines 77-81. -/
def matchesSearch (metric : Metric) (query : String) : Bool :=
  if query.isEmpty then true
  else
    let normalizedQuery := jsToLower query
    searchableFields.any (fun field =>
      jsIncludes (toComparable (getField metric field)) normalizedQuery)

/-- `allMetrics` from `App.vue` line 83. -/
def allMetrics (categories : List CategoryEntry) : List Metric :=
  categories.flatMap (fun category => category.items)

/-- A `CategoryEntry` augmented with `matchCount` (the spread object built by
`filteredCategories`). -/
structure FilteredCategory where
  category : String
  slug : String
  file : String
  count : Nat
  items : List Metric
  matchCount : Nat
deriving DecidableEq

/-- `filteredCategories` from `App.vue` lines 85-98. -/
def filteredCategories (categories : List CategoryEntry)
    (searchQuery : String) : List FilteredCategory :=
  let query := jsToLower (jsTrim searchQuery)
  (categories.map (fun category =>
    let matchCount :=
      if query.isEmpty then category.count
      else (category.items.filter (fun metric => matchesSearch metric query)).length
    { category := category.category
      slug := category.slug
      file := category.file
      count := category.count
      items := category.items
      matchCount := matchCount })).filter
    (fun category =>
      if query.isEmpty then decide (category.count > 0)
      else decide (category.matchCount > 0))

/-- The `watchEffect` from `App.vue` lines 100-104, as the pure selection it
computes: keep the selection when a visible category bears its name, else
fall back to the first visible category's name, else `''`. -/
def reconcileSelection (categories : List CategoryEntry)
    (searchQuery selectedCategory : String) : String :=
  let visible := filteredCategories categories searchQuery
  if visible.any (fun category => category.category == selectedCategory) then selectedCategory
  else ((visible.head?).map (fun category => category.category)).getD ""

/-- `displayMetrics` from `App.vue` lines 106-114. -/
def displayMetrics (categories : List CategoryEntry)
    (searchQuery selectedCategory : String) : List Metric :=
  let query := jsToLower (jsTrim searchQuery)
  if query.isEmpty then
    ((categories.find? (fun category => category.category == selectedCategory)).map
      (fun category => category.items)).getD []
  else
    (allMetrics categories).filter (fun metric => matchesSearch metric query)

/-- `iconFieldMap` from `App.vue` lines 124-130; lookups of unmapped keys
yield `undefined`, which `metricDetails` coalesces to `null` (`none`). -/
def iconFieldMap : Field → Option String
  | .ReportPeriod => some "repeat"
  | .Target => some "bullseye"
  | .Comment => some "comment"
  | .Source => some "arrow-up-right-from-square"
  | .Contributor => some "user"
  | _ => none

/-- `detailFields` from `App.vue` lines 132-138, in source order. -/
def detailFields : List Field :=
  [.ReportPeriod, .Target, .Comment, .Contributor, .Source]

/-- `field.toString()` for the detail fields. -/
def fieldName : Field → String
  | .MetricTitle => "MetricTitle"
  | .MetricDescription => "MetricDescription"
  | .Category => "Category"
  | .SubCategory => "SubCategory"
  | .ReportPeriod => "ReportPeriod"
  | .Target => "Target"
  | .Comment => "Comment"
  | .Contributor => "Contributor"
  | .Source => "Source"

/-- `MetricDetail` from `App.vue` lines 140-144. -/
structure MetricDetail where
  field : String
  value : String
  icon : Option String
deriving DecidableEq

/-- The `value` computation of `metricDetails`: strings are trimmed,
`null`/`undefined` become `''`, other values are `String(raw)` untrimmed. -/
def detailValue : JVal → String
  | .vstr s => jsTrim s
  | .vnull => ""
  | .vundef => ""
  | v => jsToString v

/-- `metricDetails` from `App.vue` lines 146-157. -/
def metricDetails (metric : Metric) : List MetricDetail :=
  detailFields.foldl
    (fun details field =>
      let value := detailValue (getField metric field)
      if value.isEmpty || value == "-" || jsToLower value == "null" then details
      else details ++ [{ field := fieldName field
                         value := value
                         icon := iconFieldMap field }])
    []

/-! ## Helper lemmas: emptiness of modelled string operations -/

theorem jsToLower_eq_empty_iff (s : String) : jsToLower s = "" ↔ s = "" := by
  constructor
  · intro h
    have hd : s.data.map Char.toLower = ("" : String).data := congrArg String.data h
    exact String.ext (by simpa using hd)
  · intro h
    subst h
    rfl

theorem query_isEmpty_iff (q : String) :
    (jsToLower (jsTrim q)).isEmpty = true ↔ jsTrim q = "" := by
  rw [String.isEmpty_iff, jsToLower_eq_empty_iff]

/-! ## Helper lemmas: decimal representations of natural numbers

The derived record ids have the shape `slug ++ "-" ++ toString index`.  The
uniqueness argument needs that decimal digit strings contain no `'-'` and that
`Nat.repr` is injective; both are proved here from `Nat.toDigitsCore`. -/

theorem toString_nat (n : Nat) : toString n = Nat.repr n := rfl

theorem digitChar_ne_dash : ∀ d, d < 10 → Nat.digitChar d ≠ '-' := by decide

theorem toDigitsCore_mem (fuel : Nat) :
    ∀ (n : Nat) (acc : List Char) (c : Char),
      c ∈ Nat.toDigitsCore 10 fuel n acc → c ∈ acc ∨ ∃ d, d < 10 ∧ c = Nat.digitChar d := by
  induction fuel with
  | zero =>
    intro n acc c hc
    exact Or.inl hc
  | succ fuel ih =>
    intro n acc c hc
    rw [Nat.toDigitsCore] at hc
    by_cases h : n / 10 = 0
    · rw [if_pos h] at hc
      rcases List.mem_cons.mp hc with h1 | h1
      · exact Or.inr ⟨n % 10, Nat.mod_lt _ (by norm_num), h1⟩
      · exact Or.inl h1
    · rw [if_neg h] at hc
      rcases ih (n / 10) (Nat.digitChar (n % 10) :: acc) c hc with h1 | h1
      · rcases List.mem_cons.mp h1 with h2 | h2
        · exact Or.inr ⟨n % 10, Nat.mod_lt _ (by norm_num), h2⟩
        · exact Or.inl h2
      · exact Or.inr h1

theorem repr_data (n : Nat) : (Nat.repr n).data = Nat.toDigitsCore 10 (n + 1) n [] := rfl

theorem repr_no_dash (n : Nat) : '-' ∉ (Nat.repr n).data := by
  intro hmem
  rw [repr_data] at hmem
  rcases toDigitsCore_mem (n + 1) n [] '-' hmem with h | ⟨d, hd, hc⟩
  · simp at h
  · exact digitChar_ne_dash d hd hc.symm

theorem toDigitsCore_append (fuel : Nat) :
    ∀ (n : Nat) (acc : List Char),
      Nat.toDigitsCore 10 fuel n acc = Nat.toDigitsCore 10 fuel n [] ++ acc := by
  induction fuel with
  | zero =>
    intro n acc
    rfl
  | succ fuel ih =>
    intro n acc
    rw [Nat.toDigitsCore, Nat.toDigitsCore]
    by_cases h : n / 10 = 0
    · rw [if_pos h, if_pos h]
      rfl
    · rw [if_neg h, if_neg h, ih (n / 10) (Nat.digitChar (n % 10) :: acc),
        ih (n / 10) [Nat.digitChar (n % 10)], List.append_assoc]
      rfl

/-- Digit value of a character, for reading decimal strings back. -/
def charVal (c : Char) : Nat := c.toNat - '0'.toNat

/-- Numeric value of a most-significant-first decimal digit string. -/
def valOfDigits (l : List Char) : Nat := l.foldl (fun acc c => acc * 10 + charVal c) 0

theorem charVal_digitChar : ∀ r, r < 10 → charVal (Nat.digitChar r) = r := by decide

theorem valOfDigits_append_singleton (l : List Char) (c : Char) :
    valOfDigits (l ++ [c]) = valOfDigits l * 10 + charVal c := by
  rw [valOfDigits, valOfDigits, List.foldl_append]
  rfl

theorem toDigitsCore_val (fuel : Nat) :
    ∀ n, n < fuel → valOfDigits (Nat.toDigitsCore 10 fuel n []) = n := by
  induction fuel with
  | zero =>
    intro n hn
    exact absurd hn (Nat.not_lt_zero n)
  | succ fuel ih =>
    intro n hn
    rw [Nat.toDigitsCore]
    by_cases h : n / 10 = 0
    · rw [if_pos h]
      have hlt : n % 10 < 10 := Nat.mod_lt _ (by norm_num)
      show valOfDigits [Nat.digitChar (n % 10)] = n
      rw [show ([Nat.digitChar (n % 10)] : List Char) = [] ++ [Nat.digitChar (n % 10)] from rfl,
        valOfDigits_append_singleton, charVal_digitChar _ hlt]
      have hbase : valOfDigits ([] : List Char) = 0 := rfl
      rw [hbase]
      omega
    · rw [if_neg h, toDigitsCore_append fuel (n / 10) [Nat.digitChar (n % 10)],
        valOfDigits_append_singleton, charVal_digitChar _ (Nat.mod_lt _ (by norm_num))]
      have hdiv : n / 10 < fuel := by omega
      rw [ih (n / 10) hdiv]
      omega

theorem repr_injective {m n : Nat} (h : Nat.repr m = Nat.repr n) : m = n := by
  have hd := congrArg String.data h
  rw [repr_data, repr_data] at hd
  have hm := toDigitsCore_val (m + 1) m (Nat.lt_succ_self m)
  have hn := toDigitsCore_val (n + 1) n (Nat.lt_succ_self n)
  rw [← hm, ← hn, hd]

/-! ## Helper lemmas: splitting around the last separator -/

theorem append_sep_inj :
    ∀ (a1 : List Char) {a2 b1 b2 : List Char}, '-' ∉ a1 → '-' ∉ a2 →
      a1 ++ '-' :: b1 = a2 ++ '-' :: b2 → a1 = a2 ∧ b1 = b2 := by
  intro a1
  induction a1 with
  | nil =>
    intro a2 b1 b2 _ h2 heq
    cases a2 with
    | nil =>
      simp only [List.nil_append, List.cons.injEq] at heq
      exact ⟨rfl, heq.2⟩
    | cons y t2 =>
      simp only [List.nil_append, List.cons_append, List.cons.injEq] at heq
      exact absurd (heq.1 ▸ List.mem_cons_self y t2) h2
  | cons x t ih =>
    intro a2 b1 b2 h1 h2 heq
    cases a2 with
    | nil =>
      simp only [List.cons_append, List.nil_append, List.cons.injEq] at heq
      exact absurd (heq.1 ▸ List.mem_cons_self x t) h1
    | cons y t2 =>
      simp only [List.cons_append, List.cons.injEq] at heq
      obtain ⟨hxy, htl⟩ := heq
      have h1' : '-' ∉ t := fun hm => h1 (List.mem_cons_of_mem x hm)
      have h2' : '-' ∉ t2 := fun hm => h2 (List.mem_cons_of_mem y hm)
      obtain ⟨ha, hb⟩ := ih h1' h2' htl
      exact ⟨by rw [hxy, ha], hb⟩

/-- Injectivity of the derived record id `slug ++ "-" ++ toString index`. -/
theorem slugId_inj {s1 s2 : String} {i1 i2 : Nat}
    (h : s1 ++ "-" ++ toString i1 = s2 ++ "-" ++ toString i2) : s1 = s2 ∧ i1 = i2 := by
  rw [toString_nat, toString_nat] at h
  have hd : s1.data ++ '-' :: (Nat.repr i1).data = s2.data ++ '-' :: (Nat.repr i2).data := by
    have hdata := congrArg String.data h
    simpa [String.data_append, List.append_assoc] using hdata
  have hrev : (Nat.repr i1).data.reverse ++ '-' :: s1.data.reverse
      = (Nat.repr i2).data.reverse ++ '-' :: s2.data.reverse := by
    have hrev0 := congrArg List.reverse hd
    simpa [List.reverse_append, List.append_assoc] using hrev0
  have hnd1 : '-' ∉ (Nat.repr i1).data.reverse :=
    fun hm => repr_no_dash i1 (List.mem_reverse.mp hm)
  have hnd2 : '-' ∉ (Nat.repr i2).data.reverse :=
    fun hm => repr_no_dash i2 (List.mem_reverse.mp hm)
  obtain ⟨hids, hslugs⟩ := append_sep_inj _ hnd1 hnd2 hrev
  constructor
  · exact String.ext (List.reverse_injective hslugs)
  · exact repr_injective (String.ext (List.reverse_injective hids))

/-! ## Concrete sample data (mirrors the README scenario) -/

def exMetricA : Metric :=
  { id := "governance-0"
    Category := "Governance"
    SubCategory := none
    MetricTitle := "Board Reporting Cadence"
    MetricDescription := "Cadence of board updates"
    ReportPeriod := "Quarterly"
    Target := ""
    Comment := ""
    Contributor := ""
    Source := "" }

def exMetricB : Metric :=
  { id := "governance-1"
    Category := "Governance"
    SubCategory := some "Oversight"
    MetricTitle := "Policy Review Rate"
    MetricDescription := "Share of policies reviewed"
    ReportPeriod := ""
    Target := "95%"
    Comment := ""
    Contributor := ""
    Source := "" }

def exMetricC : Metric :=
  { id := "incident-response-0"
    Category := "Incident Response"
    SubCategory := none
    MetricTitle := "Mean Time to Contain"
    MetricDescription := "Average time needed to contain incidents"
    ReportPeriod := ""
    Target := ""
    Comment := ""
    Contributor := ""
    Source := "" }

def exGov : CategoryEntry :=
  { category := "Governance"
    slug := "governance"
    file := "governance.json"
    count := 2
    items := [exMetricA, exMetricB] }

def exIR : CategoryEntry :=
  { category := "Incident Response"
    slug := "incident-response"
    file := "incident-response.json"
    count := 1
    items := [exMetricC] }

def exCatalog : List CategoryEntry := [exGov, exIR]

/-! ## C3: the matching predicate -/

theorem field_mem_searchableFields (f : Field) : f ∈ searchableFields := by
  cases f <;> decide

/-- C3: `matchesSearch` returns true on the empty query; on a non-empty query
it returns true iff the normalized query is a substring of the normalized
value of at least one of the nine searchable fields (`MetricTitle`,
`MetricDescription`, `Category`, `SubCategory`, `ReportPeriod`, `Target`,
`Comment`, `Contributor`, `Source`) — stated as an existential over the nine
fields, so the order of the field list is irrelevant to the result. -/
theorem matchesSearch_spec (m : Metric) (q : String) :
    matchesSearch m "" = true ∧
    (q ≠ "" →
      (matchesSearch m q = true ↔
        ∃ f : Field, jsIncludes (toComparable (getField m f)) (jsToLower q) = true)) := by
  refine ⟨rfl, fun hq => ?_⟩
  have hne : q.isEmpty = false := by
    cases h : q.isEmpty
    · rfl
    · exact absurd ((String.isEmpty_iff q).mp h) hq
  rw [matchesSearch, hne]
  simp only [Bool.false_eq_true, if_false, List.any_eq_true]
  constructor
  · rintro ⟨f, _, h⟩
    exact ⟨f, h⟩
  · rintro ⟨f, h⟩
    exact ⟨f, field_mem_searchableFields f, h⟩

/-- C3 witness: concrete application at `q = "contain"`, `m = exMetricC`. -/
theorem matchesSearch_spec_witness :
    ("contain" : String) ≠ "" ∧
    (matchesSearch exMetricC "contain" = true ↔
      ∃ f : Field, jsIncludes (toComparable (getField exMetricC f)) (jsToLower "contain") = true) :=
  ⟨by decide, (matchesSearch_spec exMetricC "contain").2 (by decide)⟩

/-! ## C4: hydration defaults -/

/-- C4 counterexample: hydrating a raw record with a missing `SubCategory`
leaves `SubCategory` as `null` (`none`), not the empty string — refuting the
claim that every optional field is defaulted to `""` and never null. -/
theorem hydrateMetric_subCategory_cex :
    (hydrateMetric {} "governance" 0).SubCategory = none ∧
    (hydrateMetric {} "governance" 0).SubCategory ≠ some "" := by decide

/-- C4 (amended): hydration defaults every missing/null field to the empty
string except `SubCategory`, which is coalesced to `null` (it stays exactly
the raw value `string | null`); the remaining fields are never null. -/
theorem hydrateMetric_defaults (metric : MetricBase) (slug : String) (index : Nat) :
    (hydrateMetric metric slug index).SubCategory = metric.SubCategory ∧
    (hydrateMetric metric slug index).Category = metric.Category.getD "" ∧
    (hydrateMetric metric slug index).MetricTitle = metric.MetricTitle.getD "" ∧
    (hydrateMetric metric slug index).MetricDescription = metric.MetricDescription.getD "" ∧
    (hydrateMetric metric slug index).ReportPeriod = metric.ReportPeriod.getD "" ∧
    (hydrateMetric metric slug index).Target = metric.Target.getD "" ∧
    (hydrateMetric metric slug index).Comment = metric.Comment.getD "" ∧
    (hydrateMetric metric slug index).Contributor = metric.Contributor.getD "" ∧
    (hydrateMetric metric slug index).Source = metric.Source.getD "" :=
  ⟨rfl, rfl, rfl, rfl, rfl, rfl, rfl, rfl, rfl⟩

/-! ## C5: the normalization operation -/

/-- C5 counterexample: `toComparable` applied to the non-string value `42`
returns `"42"`, not the empty string — refuting the claim that every
non-string input is coerced to `""`. -/
theorem toComparable_num_cex :
    toComparable (JVal.vnum 42) = "42" ∧ toComparable (JVal.vnum 42) ≠ "" := by decide

/-- C5 (amended): `toComparable` lower-cases string inputs, coerces `null`
and `undefined` (absent values) to the empty string, and coerces every other
non-string value to its string representation, lower-cased. -/
theorem toComparable_spec :
    (∀ s, toComparable (.vstr s) = jsToLower s) ∧
    toComparable .vnull = "" ∧
    toComparable .vundef = "" ∧
    (∀ n, toComparable (.vnum n) = jsToLower (jsToString (.vnum n))) ∧
    (∀ b, toComparable (.vbool b) = jsToLower (jsToString (.vbool b))) :=
  ⟨fun _ => rfl, rfl, rfl, fun _ => rfl, fun _ => rfl⟩

/-! ## C1: the displayed record set -/

theorem displayMetrics_of_ne (cats : List CategoryEntry) (q sel : String)
    (h : jsTrim q ≠ "") :
    displayMetrics cats q sel
      = (allMetrics cats).filter (fun m => matchesSearch m (jsToLower (jsTrim q))) := by
  have hb : (jsToLower (jsTrim q)).isEmpty = false := by
    cases hb : (jsToLower (jsTrim q)).isEmpty
    · rfl
    · exact absurd ((query_isEmpty_iff q).mp hb) h
  simp only [displayMetrics, hb, Bool.false_eq_true, if_false]

theorem displayMetrics_of_empty (cats : List CategoryEntry) (q sel : String)
    (h : jsTrim q = "") :
    displayMetrics cats q sel
      = ((cats.find? (fun c => c.category == sel)).map (fun c => c.items)).getD [] := by
  have hb : (jsToLower (jsTrim q)).isEmpty = true := (query_isEmpty_iff q).mpr h
  simp only [displayMetrics, hb, if_true]

/-- C1: if the query is non-empty after trimming, `displayMetrics` returns
the flattened sequence of all records across all categories, in catalog
order, that satisfy `matchesSearch` — independent of the selected category;
if the trimmed query is empty, it returns exactly the items of the first
category whose display name equals the selection, or `[]` if none has that
name. -/
theorem displayMetrics_spec (cats : List CategoryEntry) (q sel : String) :
    (jsTrim q ≠ "" →
      displayMetrics cats q sel
        = cats.flatMap (fun c => c.items.filter
            (fun m => matchesSearch m (jsToLower (jsTrim q)))) ∧
      (∀ sel', displayMetrics cats q sel' = displayMetrics cats q sel)) ∧
    (jsTrim q = "" →
      (∀ c, cats.find? (fun c' => c'.category == sel) = some c →
        displayMetrics cats q sel = c.items) ∧
      ((∀ c ∈ cats, c.category ≠ sel) → displayMetrics cats q sel = [])) := by
  constructor
  · intro h
    have hmain : ∀ s', displayMetrics cats q s'
        = cats.flatMap (fun c => c.items.filter
            (fun m => matchesSearch m (jsToLower (jsTrim q)))) := by
      intro s'
      rw [displayMetrics_of_ne cats q s' h, allMetrics, List.filter_flatMap]
    exact ⟨hmain sel, fun sel' => (hmain sel').trans (hmain sel).symm⟩
  · intro h
    constructor
    · intro c hc
      rw [displayMetrics_of_empty cats q sel h, hc]
      rfl
    · intro hall
      rw [displayMetrics_of_empty cats q sel h]
      have hnone : cats.find? (fun c' => c'.category == sel) = none := by
        rw [List.find?_eq_none]
        intro x hx
        simp only [beq_iff_eq]
        exact hall x hx
      rw [hnone]
      rfl

/-- C1 witness: the README scenario — a global search for "contain", and the
empty query with "Governance" selected. -/
theorem displayMetrics_spec_witness :
    (jsTrim "contain" ≠ "" ∧
      displayMetrics exCatalog "contain" "Governance"
        = exCatalog.flatMap (fun c => c.items.filter
            (fun m => matchesSearch m (jsToLower (jsTrim "contain"))))) ∧
    (jsTrim " " = "" ∧
      exCatalog.find? (fun c' => c'.category == "Governance") = some exGov ∧
      displayMetrics exCatalog " " "Governance" = exGov.items) :=
  ⟨⟨by decide, ((displayMetrics_spec exCatalog "contain" "Governance").1 (by decide)).1⟩,
   ⟨by decide, by decide,
    ((displayMetrics_spec exCatalog " " "Governance").2 (by decide)).1 exGov (by decide)⟩⟩

/-! ## C2: the visible category list -/

/-- C2: `filteredCategories` returns, in catalog order, the categories
augmented with `matchCount` — the number of records matching the query when
the trimmed query is non-empty, the stored `count` when it is empty — and
keeps exactly those with `matchCount > 0` (non-empty query) resp.
`count > 0` (empty query); consequently, on a catalog whose counts agree
with the item lists, a category with zero records is never included. -/
theorem filteredCategories_of_empty (cats : List CategoryEntry) (q : String)
    (h : jsTrim q = "") :
    filteredCategories cats q
      = (cats.map (fun c =>
          (⟨c.category, c.slug, c.file, c.count, c.items, c.count⟩ : FilteredCategory))).filter
        (fun fc => decide (fc.count > 0)) := by
  have hb : (jsToLower (jsTrim q)).isEmpty = true := (query_isEmpty_iff q).mpr h
  simp only [filteredCategories, hb, if_true]

theorem filteredCategories_of_ne (cats : List CategoryEntry) (q : String)
    (h : jsTrim q ≠ "") :
    filteredCategories cats q
      = (cats.map (fun c =>
          (⟨c.category, c.slug, c.file, c.count, c.items,
            (c.items.filter (fun m => matchesSearch m (jsToLower (jsTrim q)))).length⟩ :
            FilteredCategory))).filter
        (fun fc => decide (fc.matchCount > 0)) := by
  have hb : (jsToLower (jsTrim q)).isEmpty = false := by
    cases hb : (jsToLower (jsTrim q)).isEmpty
    · rfl
    · exact absurd ((query_isEmpty_iff q).mp hb) h
  simp only [filteredCategories, hb, Bool.false_eq_true, if_false]

theorem filteredCategories_spec (cats : List CategoryEntry) (q : String)
    (hwf : ∀ c ∈ cats, c.count = c.items.length) :
    filteredCategories cats q
      = (cats.map (fun c =>
          ({ category := c.category
             slug := c.slug
             file := c.file
             count := c.count
             items := c.items
             matchCount :=
               if jsTrim q = "" then c.count
               else (c.items.filter
                 (fun m => matchesSearch m (jsToLower (jsTrim q)))).length } :
            FilteredCategory))).filter
        (fun fc => if jsTrim q = "" then decide (fc.count > 0) else decide (fc.matchCount > 0))
    ∧ (∀ fc ∈ filteredCategories cats q, fc.items ≠ []) := by
  constructor
  · by_cases hq : jsTrim q = ""
    · rw [filteredCategories_of_empty cats q hq]
      simp only [hq, eq_self_iff_true, if_true]
    · rw [filteredCategories_of_ne cats q hq]
      simp only [hq, if_false, ite_false]
  · intro fc hfc
    by_cases hq : jsTrim q = ""
    · rw [filteredCategories_of_empty cats q hq] at hfc
      obtain ⟨hmem, hpred⟩ := List.mem_filter.mp hfc
      obtain ⟨c, hc, hceq⟩ := List.mem_map.mp hmem
      subst hceq
      simp only [decide_eq_true_eq] at hpred
      have hlen : 0 < c.items.length := hwf c hc ▸ hpred
      intro hnil
      have hnil' : c.items = [] := hnil
      rw [hnil'] at hlen
      simp at hlen
    · rw [filteredCategories_of_ne cats q hq] at hfc
      obtain ⟨hmem, hpred⟩ := List.mem_filter.mp hfc
      obtain ⟨c, hc, hceq⟩ := List.mem_map.mp hmem
      subst hceq
      simp only [decide_eq_true_eq] at hpred
      intro hnil
      have hnil' : c.items = [] := hnil
      rw [hnil'] at hpred
      simp at hpred

/-- C2 witness: the sample catalog with the query "contain". -/
theorem filteredCategories_spec_witness :
    (∀ c ∈ exCatalog, c.count = c.items.length) ∧
    (∀ fc ∈ filteredCategories exCatalog "contain", fc.items ≠ []) :=
  ⟨by decide, (filteredCategories_spec exCatalog "contain" (by decide)).2⟩

/-! ## C6: selection reconciliation -/

theorem any_category_iff (l : List FilteredCategory) (sel : String) :
    (l.any (fun c => c.category == sel) = true)
      ↔ sel ∈ l.map (fun fc => fc.category) := by
  rw [List.any_eq_true]
  constructor
  · rintro ⟨fc, hfc, hbeq⟩
    exact List.mem_map.mpr ⟨fc, hfc, by simpa using hbeq⟩
  · intro hmem
    obtain ⟨fc, hfc, heq⟩ := List.mem_map.mp hmem
    exact ⟨fc, hfc, by simpa using heq⟩

/-- C6: after reconciliation the selection equals the prior one when that
name is among the visible categories' names, otherwise the first visible
category's name, or `""` when no category is visible — so a selection naming
a category filtered out by the query is always replaced. -/
theorem reconcileSelection_spec (cats : List CategoryEntry) (q sel : String) :
    (sel ∈ (filteredCategories cats q).map (fun fc => fc.category) →
      reconcileSelection cats q sel = sel) ∧
    (sel ∉ (filteredCategories cats q).map (fun fc => fc.category) →
      (∀ fc rest, filteredCategories cats q = fc :: rest →
        reconcileSelection cats q sel = fc.category) ∧
      (filteredCategories cats q = [] → reconcileSelection cats q sel = "")) := by
  constructor
  · intro hmem
    rw [reconcileSelection, if_pos ((any_category_iff _ sel).mpr hmem)]
  · intro hnot
    have hfalse : (filteredCategories cats q).any (fun c => c.category == sel) = false := by
      cases hb : (filteredCategories cats q).any (fun c => c.category == sel)
      · rfl
      · exact absurd ((any_category_iff _ sel).mp hb) hnot
    constructor
    · intro fc rest hcons
      rw [reconcileSelection, hcons]
      rw [hcons] at hfalse
      simp only [hfalse, Bool.false_eq_true, if_false, List.head?_cons]
      rfl
    · intro hnil
      rw [reconcileSelection, hnil]
      simp only [List.any_nil, Bool.false_eq_true, if_false, List.head?_nil]
      rfl

/-- The single visible category for the query "contain" on the sample
catalog. -/
def exIRMatched : FilteredCategory :=
  { category := "Incident Response"
    slug := "incident-response"
    file := "incident-response.json"
    count := 1
    items := [exMetricC]
    matchCount := 1 }

/-- C6 witness: with query "contain" only "Incident Response" stays visible,
so the stale selection "Governance" is replaced by it; with the empty query
the selection "Governance" is kept. -/
theorem reconcileSelection_spec_witness :
    ("Governance" ∈ (filteredCategories exCatalog "").map (fun fc => fc.category) ∧
      reconcileSelection exCatalog "" "Governance" = "Governance") ∧
    ("Governance" ∉ (filteredCategories exCatalog "contain").map (fun fc => fc.category) ∧
      filteredCategories exCatalog "contain" = exIRMatched :: [] ∧
      reconcileSelection exCatalog "contain" "Governance" = exIRMatched.category) :=
  ⟨⟨by decide, (reconcileSelection_spec exCatalog "" "Governance").1 (by decide)⟩,
   ⟨by decide, by decide,
    ((reconcileSelection_spec exCatalog "contain" "Governance").2 (by decide)).1
      exIRMatched [] (by decide)⟩⟩

/-! ## C7: the rendered detail entries -/

/-- Restatement of the exclusion rule for one candidate detail entry, from
the spec's words: the entry is dropped when the trimmed value is empty, the
single character `"-"`, or case-insensitively the literal `"null"`;
otherwise the trimmed value is kept with the mapped icon. -/
def detailEntry (name value : String) (icon : Option String) : List MetricDetail :=
  if jsTrim value = "" ∨ jsTrim value = "-" ∨ jsToLower (jsTrim value) = "null" then []
  else [⟨name, jsTrim value, icon⟩]

theorem excludeDetail_bool_iff (s : String) :
    ((s.isEmpty || s == "-" || jsToLower s == "null") = true)
      ↔ (s = "" ∨ s = "-" ∨ jsToLower s = "null") := by
  simp [String.isEmpty_iff, or_assoc]

/-- Sample record carrying only sentinel values in its detail fields. -/
def exSentinel : Metric :=
  { id := "sample-0"
    Category := "Sample"
    SubCategory := none
    MetricTitle := "Sentinel Sample"
    MetricDescription := "Only placeholder detail values"
    ReportPeriod := ""
    Target := "-"
    Comment := "null"
    Contributor := ""
    Source := "  " }

/-- Sample record whose only meaningful detail field is `Target = "95%"`. -/
def exTargetOnly : Metric :=
  { id := "sample-1"
    Category := "Sample"
    SubCategory := none
    MetricTitle := "Target Sample"
    MetricDescription := "A single meaningful detail value"
    ReportPeriod := ""
    Target := "95%"
    Comment := ""
    Contributor := ""
    Source := "" }

/-- C7: `metricDetails` walks the fixed order `ReportPeriod`, `Target`,
`Comment`, `Contributor`, `Source`, drops a field exactly when its trimmed
value is empty, `"-"`, or case-insensitively `"null"`, and tags every kept
field with the icon of the fixed field-to-icon mapping; in particular the
record with `Target = "-"`, `Comment = "null"`, `Source = "  "` produces no
entries, while `Target = "95%"` produces
`{field := "Target", value := "95%", icon := "bullseye"}`. -/
theorem metricDetails_spec (m : Metric) :
    metricDetails m
      = detailEntry "ReportPeriod" m.ReportPeriod (some "repeat")
        ++ detailEntry "Target" m.Target (some "bullseye")
        ++ detailEntry "Comment" m.Comment (some "comment")
        ++ detailEntry "Contributor" m.Contributor (some "user")
        ++ detailEntry "Source" m.Source (some "arrow-up-right-from-square")
    ∧ metricDetails exSentinel = []
    ∧ metricDetails exTargetOnly
        = [{ field := "Target", value := "95%", icon := some "bullseye" }] := by
  refine ⟨?_, by decide, by decide⟩
  have hstep : ∀ (acc : List MetricDetail) (n v : String) (ic : Option String),
      (if (jsTrim v).isEmpty || jsTrim v == "-" || jsToLower (jsTrim v) == "null"
        then acc
        else acc ++ [⟨n, jsTrim v, ic⟩])
      = acc ++ detailEntry n v ic := by
    intro acc n v ic
    by_cases h : jsTrim v = "" ∨ jsTrim v = "-" ∨ jsToLower (jsTrim v) = "null"
    · rw [if_pos ((excludeDetail_bool_iff _).mpr h), detailEntry, if_pos h, List.append_nil]
    · have hb : ((jsTrim v).isEmpty || jsTrim v == "-" || jsToLower (jsTrim v) == "null")
          = false := by
        cases hbb : ((jsTrim v).isEmpty || jsTrim v == "-" || jsToLower (jsTrim v) == "null")
        · rfl
        · exact absurd ((excludeDetail_bool_iff _).mp hbb) h
      rw [hb, detailEntry, if_neg h]
      simp
  simp only [metricDetails, detailFields, List.foldl_cons, List.foldl_nil, getField,
    detailValue, fieldName, iconFieldMap, hstep]
  simp only [List.nil_append]

/-! ## C9: loading categories with a missing record source -/

/-- C9: the loader produces one `Category` per manifest entry (no failure);
a manifest entry whose module key is absent gets an empty `items` sequence;
and every loaded category's `count` equals the length of its `items`,
regardless of the manifest's declared count. -/
theorem initialCategories_spec (manifest : List CategoryMeta)
    (modules : List (String × List MetricBase)) :
    (initialCategories manifest modules).length = manifest.length ∧
    (∀ i (h1 : i < manifest.length) (h2 : i < (initialCategories manifest modules).length),
      modules.lookup ("./data/metrics/" ++ (manifest.get ⟨i, h1⟩).slug ++ ".json") = none →
      ((initialCategories manifest modules).get ⟨i, h2⟩).items = []) ∧
    (∀ c ∈ initialCategories manifest modules, c.count = c.items.length) := by
  refine ⟨by simp [initialCategories], ?_, ?_⟩
  · intro i h1 h2 hnone
    simp only [List.get_eq_getElem] at hnone ⊢
    simp only [initialCategories, List.getElem_map]
    simp only [hnone, Option.getD_none, List.mapIdx_nil]
  · intro c hc
    rw [initialCategories] at hc
    obtain ⟨meta, hmeta, hceq⟩ := List.mem_map.mp hc
    subst hceq
    rfl

def exManifest : List CategoryMeta :=
  [{ category := "Governance", slug := "governance", file := "governance.json", count := 2 },
   { category := "Incident Response", slug := "incident-response",
     file := "incident-response.json", count := 1 }]

/-- C9 witness: loading the sample manifest with no module map at all yields
an empty category at index 0. -/
theorem initialCategories_spec_witness :
    (([] : List (String × List MetricBase)).lookup
        ("./data/metrics/" ++ (exManifest.get ⟨0, by decide⟩).slug ++ ".json") = none) ∧
    ((initialCategories exManifest []).get ⟨0, by decide⟩).items = [] :=
  ⟨by decide,
   (initialCategories_spec exManifest []).2.1 0 (by decide) (by decide) (by decide)⟩

/-! ## C8: derived ids and their uniqueness -/

theorem id_of_mem_items {slug : String} {raw : List MetricBase} {a : String}
    (ha : a ∈ (raw.mapIdx (fun i item => hydrateMetric item slug i)).map (fun m => m.id)) :
    ∃ i : Nat, a = slug ++ "-" ++ toString i := by
  obtain ⟨metric, hm, hid⟩ := List.mem_map.mp ha
  obtain ⟨i, hi, heq⟩ := List.mem_iff_getElem.mp hm
  rw [List.getElem_mapIdx] at heq
  exact ⟨i, by rw [← hid, ← heq]; rfl⟩

theorem nodup_ids_mapIdx (slug : String) (raw : List MetricBase) :
    ((raw.mapIdx (fun i item => hydrateMetric item slug i)).map (fun m => m.id)).Nodup := by
  rw [List.nodup_iff_injective_get]
  rintro ⟨a, ha⟩ ⟨b, hb⟩ hab
  simp only [List.get_eq_getElem, List.getElem_map, List.getElem_mapIdx] at hab
  have hab' : slug ++ "-" ++ toString a = slug ++ "-" ++ toString b := hab
  exact Fin.ext ((slugId_inj hab').2)

/-- C8: when manifest slugs are pairwise distinct, every loaded record's id
is its category's slug, `"-"`, and its 0-based position in the source
sequence, and all ids across the catalog are pairwise distinct. -/
theorem catalogIds_spec (manifest : List CategoryMeta)
    (modules : List (String × List MetricBase))
    (hslugs : (manifest.map (fun meta => meta.slug)).Nodup) :
    (∀ c ∈ initialCategories manifest modules, ∀ i (h : i < c.items.length),
      (c.items.get ⟨i, h⟩).id = c.slug ++ "-" ++ toString i) ∧
    (((initialCategories manifest modules).flatMap (fun c => c.items)).map
      (fun m => m.id)).Nodup := by
  constructor
  · intro c hc i h
    rw [initialCategories] at hc
    obtain ⟨meta, hmeta, hceq⟩ := List.mem_map.mp hc
    subst hceq
    show ((((modules.lookup ("./data/metrics/" ++ meta.slug ++ ".json")).getD []).mapIdx
        (fun itemIndex item => hydrateMetric item meta.slug itemIndex)).get ⟨i, h⟩).id
      = meta.slug ++ "-" ++ toString i
    simp only [List.get_eq_getElem, List.getElem_mapIdx]
    rfl
  · rw [initialCategories, List.map_flatMap, List.nodup_flatMap]
    constructor
    · intro c hc
      obtain ⟨meta, hmeta, hceq⟩ := List.mem_map.mp hc
      subst hceq
      show ((((modules.lookup ("./data/metrics/" ++ meta.slug ++ ".json")).getD []).mapIdx
          (fun itemIndex item => hydrateMetric item meta.slug itemIndex)).map
        (fun m => m.id)).Nodup
      exact nodup_ids_mapIdx meta.slug _
    · rw [List.pairwise_map]
      refine (List.pairwise_map.mp hslugs).imp ?_
      intro m1 m2 hne a ha1 ha2
      have ha1' : a ∈ (((modules.lookup ("./data/metrics/" ++ m1.slug ++ ".json")).getD
          []).mapIdx (fun itemIndex item => hydrateMetric item m1.slug itemIndex)).map
          (fun m => m.id) := ha1
      have ha2' : a ∈ (((modules.lookup ("./data/metrics/" ++ m2.slug ++ ".json")).getD
          []).mapIdx (fun itemIndex item => hydrateMetric item m2.slug itemIndex)).map
          (fun m => m.id) := ha2
      obtain ⟨i, hai⟩ := id_of_mem_items ha1'
      obtain ⟨j, haj⟩ := id_of_mem_items ha2'
      exact hne ((slugId_inj (hai ▸ haj)).1)

def exRawA : MetricBase :=
  { Category := some "Governance"
    MetricTitle := some "Board Reporting Cadence"
    MetricDescription := some "Cadence of board updates"
    ReportPeriod := some "Quarterly" }

def exRawB : MetricBase :=
  { Category := some "Governance"
    SubCategory := some "Oversight"
    MetricTitle := some "Policy Review Rate"
    MetricDescription := some "Share of policies reviewed"
    Target := some "95%" }

def exRawC : MetricBase :=
  { Category := some "Incident Response"
    MetricTitle := some "Mean Time to Contain"
    MetricDescription := some "Average time needed to contain incidents" }

def exModules : List (String × List MetricBase) :=
  [("./data/metrics/governance.json", [exRawA, exRawB]),
   ("./data/metrics/incident-response.json", [exRawC])]

/-- C8 witness: the sample manifest and module map produce pairwise distinct
ids. -/
theorem catalogIds_spec_witness :
    (exManifest.map (fun meta => meta.slug)).Nodup ∧
    (((initialCategories exManifest exModules).flatMap (fun c => c.items)).map
      (fun m => m.id)).Nodup :=
  ⟨by decide, (catalogIds_spec exManifest exModules (by decide)).2⟩

/-! ## C10: selection works on display names, not slugs -/

theorem find?_first (p : CategoryEntry → Bool) :
    ∀ (pre : List CategoryEntry) (c : CategoryEntry) (post : List CategoryEntry),
      (∀ x ∈ pre, p x = false) → p c = true →
      (pre ++ c :: post).find? p = some c := by
  intro pre
  induction pre with
  | nil =>
    intro c post _ hc
    simp [List.find?_cons, hc]
  | cons x t ih =>
    intro c post hpre hc
    have hx : p x = false := hpre x (List.mem_cons_self x t)
    rw [List.cons_append, List.find?_cons, hx]
    exact ih c post (fun y hy => hpre y (List.mem_cons_of_mem x hy)) hc

/-- C10: category selection operates on display names, not slugs: with an
empty query, `displayMetrics` returns the items of the first category in
catalog order whose display name equals the selection — even when a later
category (with a different slug) bears the same display name — and
reconciliation keeps any selection whose name occurs among the visible
categories' display names. -/
theorem selectionByName_spec (pre post : List CategoryEntry) (c : CategoryEntry)
    (q sel : String) :
    (jsTrim q = "" → c.category = sel → (∀ x ∈ pre, x.category ≠ sel) →
      displayMetrics (pre ++ c :: post) q sel = c.items) ∧
    (∀ cats sel', sel' ∈ (filteredCategories cats q).map (fun fc => fc.category) →
      reconcileSelection cats q sel' = sel') := by
  constructor
  · intro hq hcsel hpre
    rw [displayMetrics_of_empty _ q sel hq]
    have hfind : (pre ++ c :: post).find? (fun c' => c'.category == sel) = some c := by
      apply find?_first
      · intro x hx
        simp [hpre x hx]
      · simp [hcsel]
    rw [hfind]
    rfl
  · intro cats sel' hmem
    rw [reconcileSelection, if_pos ((any_category_iff _ sel').mpr hmem)]

/-- A second category that shares the display name "Governance" with `exGov`
but has a different slug. -/
def exGovDup : CategoryEntry :=
  { category := "Governance"
    slug := "governance-extra"
    file := "governance-extra.json"
    count := 1
    items := [exMetricB] }

/-- C10 witness: a catalog with two categories both named "Governance";
`displayMetrics` with the empty query returns only the first one's items,
and reconciliation keeps the selection "Governance". -/
theorem selectionByName_spec_witness :
    (jsTrim "" = "" ∧ exGov.category = "Governance" ∧
      (∀ x ∈ ([] : List CategoryEntry), x.category ≠ "Governance") ∧
      displayMetrics ([] ++ exGov :: [exGovDup]) "" "Governance" = exGov.items) ∧
    ("Governance" ∈ (filteredCategories ([] ++ exGov :: [exGovDup]) "").map
        (fun fc => fc.category) ∧
      reconcileSelection ([] ++ exGov :: [exGovDup]) "" "Governance" = "Governance") :=
  ⟨⟨by decide, by decide, by decide,
    (selectionByName_spec [] [exGovDup] exGov "" "Governance").1
      (by decide) (by decide) (by decide)⟩,
   ⟨by decide,
    (selectionByName_spec [] [exGovDup] exGov "" "Governance").2
      ([] ++ exGov :: [exGovDup]) "Governance" (by decide)⟩⟩

end SecKpi
